import Mathlib

/-!
Verification of the Mandelbrot interactive renderer (`src/main.rs`).

The `f64` plane arithmetic of the source is embedded over `ℚ` (every
operation the source performs on plane coordinates is one of `+ - * /`,
and all inputs appearing in the claims are decimal literals); the one
transcendental operation, the `sqrt` inside `Vec2::len`, is embedded over
`ℝ` via `Real.sqrt`. Rust's saturating, truncating float-to-integer
casts (`as u32`, `as u8`) are embedded explicitly as `ratToU32` and
`realToU8`.
-/

/-- `Vec2` from the source: a pair of coordinates (`f64` in the source,
embedded as `ℚ`). Also used as a complex number via `cross`. -/
structure Vec2 where
  x : ℚ
  y : ℚ
deriving DecidableEq, Repr

namespace Vec2

/-- `Vec2::new`. -/
def new (x y : ℚ) : Vec2 := ⟨x, y⟩

/-- `Vec2::len`: `(self.x.powi(2) + self.y.powi(2)).sqrt()`. -/
noncomputable def len (v : Vec2) : ℝ :=
  Real.sqrt ((v.x : ℝ) ^ 2 + (v.y : ℝ) ^ 2)

/-- `Vec2::hadamard`: componentwise product. -/
def hadamard (v w : Vec2) : Vec2 := new (v.x * w.x) (v.y * w.y)

/-- `Vec2::cross`: the complex product
`(ax*bx - ay*by, ax*by + ay*bx)`. -/
def cross (v w : Vec2) : Vec2 :=
  new (v.x * w.x - v.y * w.y) (v.x * w.y + v.y * w.x)

/-- `impl Add for Vec2`. -/
def add (v w : Vec2) : Vec2 := new (v.x + w.x) (v.y + w.y)

/-- `impl Sub for Vec2`. -/
def sub (v w : Vec2) : Vec2 := new (v.x - w.x) (v.y - w.y)

/-- `impl Mul<f64> for Vec2`: scalar multiplication. -/
def smul (v : Vec2) (k : ℚ) : Vec2 := new (v.x * k) (v.y * k)

/-- `impl Div<f64> for Vec2`: scalar division. -/
def sdiv (v : Vec2) (k : ℚ) : Vec2 := new (v.x / k) (v.y / k)

end Vec2

/-- The loop body of `mandelbrot`: one step `z ← z.cross(z) + c`. -/
def mandelbrotStep (c z : Vec2) : Vec2 := (z.cross z).add c

/-- The `for _ in 0..n` loop of `mandelbrot`, mirrored as a fold over
the iteration range: starts at `z = c`, applies the body once per loop
index. -/
def mandelbrotLoop (n : ℕ) (c : Vec2) : Vec2 :=
  (List.range n).foldl (fun z _ => mandelbrotStep c z) c

/-- `mandelbrot(n, c)` from the source: run the loop, return `z.len()`. -/
noncomputable def mandelbrot (n : ℕ) (c : Vec2) : ℝ :=
  (mandelbrotLoop n c).len

/-- Modelled from the spec (§4.2): "starting from z = c, repeatedly apply
z ← complex_product(z,z) + c for exactly `iterations` steps …, then
return magnitude(z)" — stated with `Function.iterate` to compare with the
source's loop. -/
noncomputable def escapeMagnitudeSpec (n : ℕ) (c : Vec2) : ℝ :=
  ((mandelbrotStep c)^[n] c).len

/-- `const ACCUARACY: u32 = 30` (iterations per depth). -/
def ACCUARACY : ℕ := 30

/-- `const BIAS: f64 = 500.0` (bias per depth). -/
def BIAS : ℚ := 500

/-- Rust's `expr as u32` on an `f64`: truncate toward zero and saturate
to `[0, 2^32 - 1]`. (`Int.toNat` maps every negative integer to `0`,
which is the low saturation bound; for non-negative values truncation
toward zero is the floor.) -/
def ratToU32 (q : ℚ) : ℕ := min ⌊q⌋.toNat (2 ^ 32 - 1)

/-- Rust's `expr as u8` on an `f64`: truncate toward zero and saturate
to `[0, 255]`. -/
noncomputable def realToU8 (r : ℝ) : ℕ := min ⌊r⌋.toNat 255

/-- An RGB pixel `(red, green, blue)`, each channel a byte value. -/
abbrev Color := ℕ × ℕ × ℕ

/-- The `RgbImage` buffer produced by `render_mandelbrot`: `data` is
row-major, `data[iy][ix]` is the pixel written by
`image.put_pixel(ix, iy, …)`. -/
structure Image where
  width : ℕ
  height : ℕ
  data : List (List Color)
deriving Repr

/-- The body of the per-pixel loop of `render_mandelbrot`: the green
channel stored for pixel `(ix, iy)` given the step sizes:
`mx = pos.x + ix*x_step`, `my = pos.y + iy*y_step`,
`scale = BIAS * depth`,
`z = mandelbrot(depth*ACCUARACY, (mx,my)).min(scale)`,
`color = (z / scale * 255.0) as u8`. -/
noncomputable def pixelGreen (pos : Vec2) (x_step y_step : ℚ) (depth ix iy : ℕ) : ℕ :=
  let mx : ℚ := pos.x + (ix : ℚ) * x_step
  let my : ℚ := pos.y + (iy : ℚ) * y_step
  let scale : ℚ := BIAS * (depth : ℚ)
  let z : ℝ := min (mandelbrot (depth * ACCUARACY) (Vec2.new mx my)) ((scale : ℚ) : ℝ)
  realToU8 (z / ((scale : ℚ) : ℝ) * 255)

/-- `render_mandelbrot(pos, size, width, depth)` from the source:
`height = (width as f64 * size.y / size.x) as u32`,
`x_step = size.x / width`, `y_step = size.y / height`, and every pixel
`(ix, iy)` with `ix < width`, `iy < height` holds
`Rgb([0, color, 0])` with `color` as in `pixelGreen`. -/
noncomputable def render_mandelbrot (pos size : Vec2) (width depth : ℕ) : Image :=
  let height := ratToU32 ((width : ℚ) * size.y / size.x)
  let x_step := size.x / (width : ℚ)
  let y_step := size.y / (height : ℚ)
  { width := width
    height := height
    data := (List.range height).map fun iy =>
      (List.range width).map fun ix =>
        (0, pixelGreen pos x_step y_step depth ix iy, 0) }

/-- A viewport as stored on the zoom stack: `(pos, size)`. -/
abbrev Viewport := Vec2 × Vec2

/-- The arguments of a `render_to_texture(pos, size, depth)` call (the
pixel width is always 1200 inside it). -/
abbrev RenderCall := Vec2 × Vec2 × ℕ

/-- The mutable state of `main`'s loop: the zoom stack (list head = top
of the stack, i.e. the Rust `Vec`'s last element) and the arguments of
the most recent `render_to_texture` call (the displayed texture). -/
structure AppState where
  stack : List Viewport
  lastRender : RenderCall
deriving DecidableEq, Repr

/-- The inputs distinguished by one pass of `main`'s loop: a released
left click at a normalized position, a released right click, or
anything else. -/
inductive Event where
  | zoomIn (click : Vec2)
  | zoomOut
  | other
deriving DecidableEq, Repr

/-- `pos` of the base viewport: `Vec2::new(-2.5, -1.2)`. -/
def basePos : Vec2 := Vec2.new (-2.5) (-1.2)

/-- `size` of the base viewport: `Vec2::new(3.2, 2.4)`. -/
def baseSize : Vec2 := Vec2.new 3.2 2.4

/-- The startup block of `main`: render the base viewport at depth `1`
and push it. -/
def initState : AppState :=
  { stack := [(basePos, baseSize)], lastRender := (basePos, baseSize, 1) }

/-- One pass of `main`'s event loop. Left release: read the top of the
stack, compute the zoomed viewport, render it with depth
`stack.len()` (taken before the push), then push it. Right release with
`stack.len() > 1`: pop, then render the new top with the new length.
Anything else: no change. (`stack.last().unwrap()` would panic on an
empty stack; the empty case, unreachable from `initState`, is modelled
as a no-op.) -/
def stepApp (s : AppState) (e : Event) : AppState :=
  match e with
  | .zoomIn click =>
    match s.stack with
    | [] => s
    | (pos, size) :: rest =>
      let new_size := size.sdiv 4
      let half_new_size := new_size.sdiv 2
      let clicked_pos := Vec2.new (pos.x + (click.x + 1) / 2 * size.x)
                                  (pos.y + (click.y + 1) / 2 * size.y)
      let new_pos := clicked_pos.sub half_new_size
      { stack := (new_pos, new_size) :: (pos, size) :: rest
        lastRender := (new_pos, new_size, ((pos, size) :: rest).length) }
  | .zoomOut =>
    match s.stack with
    | _ :: (pos, size) :: rest =>
      { stack := (pos, size) :: rest
        lastRender := (pos, size, ((pos, size) :: rest).length) }
    | _ => s
  | .other => s

/-- One pass of the loop, as a relation between states. -/
def AppStep (s t : AppState) : Prop := ∃ e, t = stepApp s e

/-- States reachable from startup by some sequence of loop passes. -/
def Reachable (s : AppState) : Prop := Relation.ReflTransGen AppStep initState s

/- ## Lemmas -/

lemma mandelbrotLoop_eq_iterate (n : ℕ) (c : Vec2) :
    mandelbrotLoop n c = (mandelbrotStep c)^[n] c := by
  induction n with
  | zero => rfl
  | succ k ih =>
    rw [mandelbrotLoop, List.range_succ, List.foldl_append]
    rw [mandelbrotLoop] at ih
    rw [ih, List.foldl_cons, List.foldl_nil, Function.iterate_succ_apply']

lemma mandelbrotLoop_succ (n : ℕ) (c : Vec2) :
    mandelbrotLoop (n + 1) c = mandelbrotStep c (mandelbrotLoop n c) := by
  rw [mandelbrotLoop, List.range_succ, List.foldl_append, List.foldl_cons, List.foldl_nil]
  rfl

/-- The point `(-1, 0)` lies on a 2-cycle of `z ← z² + c`: after any even
number of steps the orbit is back at `(-1, 0)`. -/
lemma mandelbrotLoop_even_neg_one (k : ℕ) :
    mandelbrotLoop (2 * k) (Vec2.new (-1) 0) = Vec2.new (-1) 0 := by
  induction k with
  | zero => rfl
  | succ m ih =>
    have h : 2 * (m + 1) = (2 * m + 1) + 1 := by ring
    rw [h, mandelbrotLoop_succ, mandelbrotLoop_succ, ih]
    simp [mandelbrotStep, Vec2.cross, Vec2.add, Vec2.new]

lemma mandelbrot_neg_one : mandelbrot 30 (Vec2.new (-1) 0) = 1 := by
  have hl : mandelbrotLoop 30 (Vec2.new (-1) 0) = Vec2.new (-1) 0 := by
    rw [show (30 : ℕ) = 2 * 15 by norm_num]
    exact mandelbrotLoop_even_neg_one 15
  rw [mandelbrot, hl, Vec2.len, Vec2.new]
  norm_num

lemma render_height (pos size : Vec2) (width depth : ℕ) :
    (render_mandelbrot pos size width depth).height =
      ratToU32 ((width : ℚ) * size.y / size.x) := rfl

lemma render_data (pos size : Vec2) (width depth : ℕ) :
    (render_mandelbrot pos size width depth).data =
      (List.range (ratToU32 ((width : ℚ) * size.y / size.x))).map fun iy =>
        (List.range width).map fun ix =>
          (0, pixelGreen pos (size.x / (width : ℚ))
            (size.y / ((ratToU32 ((width : ℚ) * size.y / size.x)) : ℚ)) depth ix iy, 0) := rfl

/-- Looking up an in-bounds pixel of the rendered buffer. -/
lemma render_data_get (pos size : Vec2) (width depth ix iy : ℕ)
    (hx : ix < width)
    (hy : iy < (render_mandelbrot pos size width depth).height) :
    ((render_mandelbrot pos size width depth).data[iy]?.bind fun row => row[ix]?) =
      some (0, pixelGreen pos (size.x / (width : ℚ))
        (size.y / (((render_mandelbrot pos size width depth).height : ℕ) : ℚ)) depth ix iy, 0) := by
  rw [render_height] at hy ⊢
  rw [render_data, List.getElem?_map, List.getElem?_range hy]
  simp only [Option.map_some', Option.some_bind]
  rw [List.getElem?_map, List.getElem?_range hx, Option.map_some']

lemma realToU8_le (r : ℝ) : realToU8 r ≤ 255 := min_le_right _ _

lemma pixelGreen_le (pos : Vec2) (x_step y_step : ℚ) (depth ix iy : ℕ) :
    pixelGreen pos x_step y_step depth ix iy ≤ 255 := realToU8_le _

/- ## Claims -/

/-- **C8.** `mandelbrot(n, c)` starts with `z = c`, applies
`z ← complex_product(z,z) + c` exactly `n` times with no early exit, and
returns `magnitude(z)`; in particular `mandelbrot 0 c = magnitude c`. -/
theorem mandelbrot_iterates (n : ℕ) (c : Vec2) :
    mandelbrot n c = escapeMagnitudeSpec n c ∧ mandelbrot 0 c = c.len := by
  constructor
  · rw [mandelbrot, escapeMagnitudeSpec, mandelbrotLoop_eq_iterate]
  · rfl

/-- **C9.** `(1,0)` is a left identity for the complex product `cross`. -/
theorem cross_one_identity (v : Vec2) : (Vec2.new 1 0).cross v = v := by
  cases v with
  | mk vx vy =>
    simp [Vec2.cross, Vec2.new]

/-- **C2 (counterexample).** Called with `pixel_width = 0` on the base
viewport, `render_mandelbrot` does not reject the call: it silently
returns a zero-sized buffer (width 0, height 0, no pixel rows). -/
theorem render_width_zero_counterexample :
    (render_mandelbrot (Vec2.new (-2.5) (-1.2)) (Vec2.new 3.2 2.4) 0 1).width = 0 ∧
    (render_mandelbrot (Vec2.new (-2.5) (-1.2)) (Vec2.new 3.2 2.4) 0 1).height = 0 ∧
    (render_mandelbrot (Vec2.new (-2.5) (-1.2)) (Vec2.new 3.2 2.4) 0 1).data = [] := by
  refine ⟨rfl, ?_, ?_⟩
  · rw [render_height]
    norm_num [ratToU32]
  · rw [render_data]
    norm_num [ratToU32]

/-- **C2 (amended).** `render_mandelbrot` performs no input validation:
for every `pos`, `size` and `depth`, a call with `pixel_width = 0`
silently returns a zero-sized buffer (width 0, height 0, no pixel rows)
instead of rejecting the call. -/
theorem render_width_zero_silent (pos size : Vec2) (depth : ℕ) :
    (render_mandelbrot pos size 0 depth).width = 0 ∧
    (render_mandelbrot pos size 0 depth).height = 0 ∧
    (render_mandelbrot pos size 0 depth).data = [] := by
  refine ⟨rfl, ?_, ?_⟩
  · rw [render_height]
    norm_num [ratToU32]
  · rw [render_data]
    norm_num [ratToU32]

/-- **C3 (counterexample).** At `pos = (0,0)`, `size = (2,3)`,
`pixel_width = 1` (positive extents, positive width), the buffer height
is `1` — the truncation of `1 * 3 / 2` — and not
`round (1 * 3 / 2) = 2` as the claim states. -/
theorem render_height_round_counterexample :
    (0 : ℚ) < 2 ∧ (0 : ℚ) < 3 ∧ (0 : ℕ) < 1 ∧
    (render_mandelbrot (Vec2.new 0 0) (Vec2.new 2 3) 1 1).height = 1 ∧
    round ((1 : ℚ) * 3 / 2) = 2 := by
  refine ⟨by norm_num, by norm_num, by norm_num, ?_, by norm_num [round_eq]⟩
  rw [render_height]
  norm_num [ratToU32, Nat.min_def, Vec2.new]

/-- **C3 (amended).** For positive extents and positive width (with the
quotient below the `u32` saturation bound), the buffer height is the
truncation (floor) of `width * size.y / size.x`, as produced by Rust's
`as u32` cast — not the rounding to nearest. -/
theorem render_height_trunc (pos size : Vec2) (width depth : ℕ)
    (hx : 0 < size.x) (hy : 0 < size.y) (hw : 0 < width)
    (hbound : (width : ℚ) * size.y / size.x < 2 ^ 32) :
    ((render_mandelbrot pos size width depth).height : ℤ) =
      ⌊(width : ℚ) * size.y / size.x⌋ := by
  rw [render_height, ratToU32]
  have hq : 0 ≤ (width : ℚ) * size.y / size.x := by positivity
  have hfl : 0 ≤ ⌊(width : ℚ) * size.y / size.x⌋ := Int.floor_nonneg.mpr hq
  have hlt : ⌊(width : ℚ) * size.y / size.x⌋ < 2 ^ 32 := by
    apply Int.floor_lt.mpr
    push_cast
    exact hbound
  have hle : ⌊(width : ℚ) * size.y / size.x⌋.toNat ≤ 2 ^ 32 - 1 := by
    omega
  rw [min_eq_left hle]
  omega

/-- Witness for `render_height_trunc` at `size = (2,3)`, `width = 1`. -/
theorem render_height_trunc_witness :
    ((render_mandelbrot (Vec2.new 0 0) (Vec2.new 2 3) 1 1).height : ℤ) =
      ⌊((1 : ℕ) : ℚ) * (Vec2.new 2 3).y / (Vec2.new 2 3).x⌋ :=
  render_height_trunc (Vec2.new 0 0) (Vec2.new 2 3) 1 1
    (by norm_num [Vec2.new]) (by norm_num [Vec2.new])
    (by norm_num) (by norm_num [Vec2.new])

lemma pixelGreen_eq (pos : Vec2) (x_step y_step : ℚ) (depth ix iy : ℕ) :
    pixelGreen pos x_step y_step depth ix iy =
      realToU8 (min (mandelbrot (depth * ACCUARACY)
          (Vec2.new (pos.x + (ix : ℚ) * x_step) (pos.y + (iy : ℚ) * y_step)))
        (((BIAS * (depth : ℚ)) : ℚ) : ℝ) / (((BIAS * (depth : ℚ)) : ℚ) : ℝ) * 255) := rfl

/-- **C4 (amended).** Every in-bounds pixel `(ix, iy)` of a render holds
the color `(red 0, green g, blue 0)` where `g` is the saturating
truncation to a byte of `min(raw, scale) / scale * 255` with
`raw = mandelbrot(depth * ACCUARACY, pos + (ix*x_step, iy*y_step))` and
`scale = BIAS * depth`; the green channel is at most `255`. The `as u8`
conversion truncates toward zero — it does not round to nearest as the
claim states. -/
theorem pixel_color_spec (pos size : Vec2) (width depth ix iy : ℕ)
    (hx : ix < width)
    (hy : iy < (render_mandelbrot pos size width depth).height) :
    ((render_mandelbrot pos size width depth).data[iy]?.bind fun row => row[ix]?) =
      some (0, realToU8 (min (mandelbrot (depth * ACCUARACY)
          (Vec2.new (pos.x + (ix : ℚ) * (size.x / (width : ℚ)))
            (pos.y + (iy : ℚ) * (size.y /
              (((render_mandelbrot pos size width depth).height : ℕ) : ℚ)))))
        (((BIAS * (depth : ℚ)) : ℚ) : ℝ) / (((BIAS * (depth : ℚ)) : ℚ) : ℝ) * 255), 0) ∧
    realToU8 (min (mandelbrot (depth * ACCUARACY)
          (Vec2.new (pos.x + (ix : ℚ) * (size.x / (width : ℚ)))
            (pos.y + (iy : ℚ) * (size.y /
              (((render_mandelbrot pos size width depth).height : ℕ) : ℚ)))))
        (((BIAS * (depth : ℚ)) : ℚ) : ℝ) / (((BIAS * (depth : ℚ)) : ℚ) : ℝ) * 255) ≤ 255 := by
  constructor
  · rw [render_data_get pos size width depth ix iy hx hy, pixelGreen_eq]
  · exact realToU8_le _

lemma mandelbrot_neg_one_mk : mandelbrot 30 ⟨-1, 0⟩ = 1 := mandelbrot_neg_one

/-- Witness for `pixel_color_spec` at `pos = (-1,0)`, `size = (1,1)`,
`width = 1`, `depth = 1`, pixel `(0,0)`. -/
theorem pixel_color_spec_witness :
    ((render_mandelbrot (Vec2.new (-1) 0) (Vec2.new 1 1) 1 1).data[0]?.bind fun row => row[0]?) =
      some (0, realToU8 (min (mandelbrot (1 * ACCUARACY)
          (Vec2.new ((Vec2.new (-1) 0).x + ((0 : ℕ) : ℚ) * ((Vec2.new 1 1).x / ((1 : ℕ) : ℚ)))
            ((Vec2.new (-1) 0).y + ((0 : ℕ) : ℚ) * ((Vec2.new 1 1).y /
              (((render_mandelbrot (Vec2.new (-1) 0) (Vec2.new 1 1) 1 1).height : ℕ) : ℚ)))))
        (((BIAS * ((1 : ℕ) : ℚ)) : ℚ) : ℝ) / (((BIAS * ((1 : ℕ) : ℚ)) : ℚ) : ℝ) * 255), 0) ∧
    realToU8 (min (mandelbrot (1 * ACCUARACY)
          (Vec2.new ((Vec2.new (-1) 0).x + ((0 : ℕ) : ℚ) * ((Vec2.new 1 1).x / ((1 : ℕ) : ℚ)))
            ((Vec2.new (-1) 0).y + ((0 : ℕ) : ℚ) * ((Vec2.new 1 1).y /
              (((render_mandelbrot (Vec2.new (-1) 0) (Vec2.new 1 1) 1 1).height : ℕ) : ℚ)))))
        (((BIAS * ((1 : ℕ) : ℚ)) : ℚ) : ℝ) / (((BIAS * ((1 : ℕ) : ℚ)) : ℚ) : ℝ) * 255) ≤ 255 :=
  pixel_color_spec (Vec2.new (-1) 0) (Vec2.new 1 1) 1 1 0 0 (by norm_num)
    (by rw [render_height]; norm_num [ratToU32, Nat.min_def, Vec2.new])

/-- **C4 (counterexample).** On the render with `pos = (-1,0)`,
`size = (1,1)`, `width = 1`, `depth = 1`, pixel `(0,0)` evaluates the
escape magnitude at `(-1,0)` (a 2-cycle point, magnitude `1` after 30
iterations): the stored green channel is the truncation
`⌊1/500 * 255⌋ = 0`, while the claim's round-to-nearest formula gives
`round(0.51) = 1`. -/
theorem pixel_color_round_counterexample :
    ((render_mandelbrot (Vec2.new (-1) 0) (Vec2.new 1 1) 1 1).data[0]?.bind fun row => row[0]?) =
      some (0, 0, 0) ∧
    round (min (mandelbrot (1 * ACCUARACY) (Vec2.new (-1) 0))
      (((BIAS * (1 : ℚ)) : ℚ) : ℝ) / (((BIAS * (1 : ℚ)) : ℚ) : ℝ) * 255) = 1 := by
  have hh : (render_mandelbrot (Vec2.new (-1) 0) (Vec2.new 1 1) 1 1).height = 1 := by
    rw [render_height]
    norm_num [ratToU32, Nat.min_def, Vec2.new]
  have hm : mandelbrot (1 * ACCUARACY) (Vec2.new (-1) 0) = 1 := by
    rw [show 1 * ACCUARACY = 30 from rfl]
    exact mandelbrot_neg_one
  constructor
  · have hget := render_data_get (Vec2.new (-1) 0) (Vec2.new 1 1) 1 1 0 0
      (by norm_num) (by rw [hh]; norm_num)
    rw [hget, pixelGreen_eq, hh]
    norm_num [Vec2.new, ACCUARACY, BIAS]
    rw [mandelbrot_neg_one_mk, min_eq_left (by norm_num : (1 : ℝ) ≤ 500), realToU8]
    norm_num [Int.floor_eq_iff]
  · rw [hm]
    rw [show (((BIAS * (1 : ℚ)) : ℚ) : ℝ) = 500 by norm_num [BIAS]]
    rw [min_eq_left (by norm_num : (1 : ℝ) ≤ 500)]
    norm_num [round_eq, Int.floor_eq_iff]

/-- **C5.** ZoomIn on a state whose stack top is `(pos, size)` pushes
exactly the viewport of the spec formula: new extent = extent/4
componentwise, new origin = clicked − new_extent/2 with
clicked = origin + ((click+1)/2 · extent) componentwise; and from the
base viewport with click `(0,0)` the pushed viewport is
origin `(-1.3, -0.3)`, extent `(0.8, 0.6)`. -/
theorem zoomIn_formula (s : AppState) (click pos size : Vec2)
    (rest : List Viewport) (h : s.stack = (pos, size) :: rest) :
    (stepApp s (.zoomIn click)).stack.head? =
      some (Vec2.new (pos.x + (click.x + 1) / 2 * size.x - size.x / 4 / 2)
                     (pos.y + (click.y + 1) / 2 * size.y - size.y / 4 / 2),
            Vec2.new (size.x / 4) (size.y / 4)) ∧
    (stepApp initState (.zoomIn (Vec2.new 0 0))).stack.head? =
      some (Vec2.new (-1.3) (-0.3), Vec2.new 0.8 0.6) := by
  constructor
  · obtain ⟨stk, lr⟩ := s
    simp only at h
    subst h
    simp [stepApp, Vec2.sdiv, Vec2.sub, Vec2.new]
  · simp [stepApp, initState, basePos, baseSize, Vec2.sdiv, Vec2.sub, Vec2.new]
    norm_num

/-- Witness for `zoomIn_formula` at the startup state with a centered
click. -/
theorem zoomIn_formula_witness :
    (stepApp initState (.zoomIn (Vec2.new 0 0))).stack.head? =
      some (Vec2.new (basePos.x + ((Vec2.new 0 0).x + 1) / 2 * baseSize.x - baseSize.x / 4 / 2)
                     (basePos.y + ((Vec2.new 0 0).y + 1) / 2 * baseSize.y - baseSize.y / 4 / 2),
            Vec2.new (baseSize.x / 4) (baseSize.y / 4)) ∧
    (stepApp initState (.zoomIn (Vec2.new 0 0))).stack.head? =
      some (Vec2.new (-1.3) (-0.3), Vec2.new 0.8 0.6) :=
  zoomIn_formula initState (Vec2.new 0 0) basePos baseSize [] rfl

/-- **C1 (counterexample).** From the startup state, one ZoomIn (click
`(0,0)`) leaves a stack of length 2, but the render it issued was passed
depth 1 — the length before the push — so its iteration budget is
`1 * ACCUARACY = 30`, not `2 * 30`. -/
theorem zoomIn_depth_counterexample :
    (stepApp initState (.zoomIn (Vec2.new 0 0))).stack.length = 2 ∧
    (stepApp initState (.zoomIn (Vec2.new 0 0))).lastRender.2.2 = 1 ∧
    (stepApp initState (.zoomIn (Vec2.new 0 0))).lastRender.2.2 * ACCUARACY ≠
      (stepApp initState (.zoomIn (Vec2.new 0 0))).stack.length * ACCUARACY := by
  refine ⟨?_, ?_, ?_⟩ <;> simp [stepApp, initState, ACCUARACY]

/-- **C1 (amended).** The render issued by a ZoomIn uses the stack length
from before the push: for any state with a nonempty stack, the depth
passed to `render_to_texture` is the old stack length (= new length − 1),
the stack grows by one, the iteration budget of that render is
`(old length) * 30` and its color bound is `500 * (old length)`. -/
theorem zoomIn_render_depth (s : AppState) (click : Vec2) (v : Viewport)
    (rest : List Viewport) (h : s.stack = v :: rest) :
    (stepApp s (.zoomIn click)).lastRender.2.2 = s.stack.length ∧
    (stepApp s (.zoomIn click)).stack.length = s.stack.length + 1 ∧
    (stepApp s (.zoomIn click)).lastRender.2.2 * ACCUARACY = s.stack.length * 30 ∧
    BIAS * ((stepApp s (.zoomIn click)).lastRender.2.2 : ℚ) =
      500 * (s.stack.length : ℚ) := by
  obtain ⟨stk, lr⟩ := s
  obtain ⟨p, sz⟩ := v
  simp only at h
  subst h
  refine ⟨?_, ?_, ?_, ?_⟩ <;> simp [stepApp, ACCUARACY, BIAS]

/-- Witness for `zoomIn_render_depth` at the startup state. -/
theorem zoomIn_render_depth_witness :
    (stepApp initState (.zoomIn (Vec2.new 0 0))).lastRender.2.2 = initState.stack.length ∧
    (stepApp initState (.zoomIn (Vec2.new 0 0))).stack.length = initState.stack.length + 1 ∧
    (stepApp initState (.zoomIn (Vec2.new 0 0))).lastRender.2.2 * ACCUARACY =
      initState.stack.length * 30 ∧
    BIAS * ((stepApp initState (.zoomIn (Vec2.new 0 0))).lastRender.2.2 : ℚ) =
      500 * (initState.stack.length : ℚ) :=
  zoomIn_render_depth initState (Vec2.new 0 0) (basePos, baseSize) [] rfl

/-- **C6.** ZoomOut on a stack of length 1 is a silent no-op on the whole
state; on a longer stack it pops exactly one element and the new current
viewport is exactly the stored previous top, with no recomputation. -/
theorem zoomOut_behavior (s : AppState) (v w : Viewport) (t : List Viewport) :
    (s.stack.length = 1 → stepApp s .zoomOut = s) ∧
    (s.stack = v :: w :: t →
      (stepApp s .zoomOut).stack = w :: t ∧
      (stepApp s .zoomOut).stack.length = s.stack.length - 1 ∧
      (stepApp s .zoomOut).stack.head? = some w) := by
  constructor
  · intro h1
    obtain ⟨stk, lr⟩ := s
    simp only at h1
    rcases stk with _ | ⟨a, _ | ⟨b, t2⟩⟩
    · simp at h1
    · rfl
    · simp only [List.length_cons] at h1
      omega
  · intro h2
    obtain ⟨wp, ws⟩ := w
    obtain ⟨stk, lr⟩ := s
    simp only at h2
    subst h2
    refine ⟨rfl, ?_, rfl⟩
    simp only [stepApp, List.length_cons]
    omega

/-- Witness for `zoomOut_behavior`: the no-op half at the startup state
(stack length 1), and the pop half at a two-element stack whose bottom is
the base viewport. -/
theorem zoomOut_behavior_witness :
    (stepApp initState .zoomOut = initState) ∧
    ((stepApp ⟨[(Vec2.new 0 0, Vec2.new 1 1), (basePos, baseSize)],
        (basePos, baseSize, 1)⟩ .zoomOut).stack = [(basePos, baseSize)] ∧
      (stepApp ⟨[(Vec2.new 0 0, Vec2.new 1 1), (basePos, baseSize)],
        (basePos, baseSize, 1)⟩ .zoomOut).stack.length =
        (AppState.mk [(Vec2.new 0 0, Vec2.new 1 1), (basePos, baseSize)]
          (basePos, baseSize, 1)).stack.length - 1 ∧
      (stepApp ⟨[(Vec2.new 0 0, Vec2.new 1 1), (basePos, baseSize)],
        (basePos, baseSize, 1)⟩ .zoomOut).stack.head? = some (basePos, baseSize)) :=
  ⟨(zoomOut_behavior initState (basePos, baseSize) (basePos, baseSize) []).1 rfl,
   (zoomOut_behavior ⟨[(Vec2.new 0 0, Vec2.new 1 1), (basePos, baseSize)],
      (basePos, baseSize, 1)⟩ (Vec2.new 0 0, Vec2.new 1 1) (basePos, baseSize) []).2 rfl⟩

/-- **C7.** Every state reachable from startup has a non-empty stack
whose bottom element is the base viewport
(origin `(-2.5, -1.2)`, extent `(3.2, 2.4)`), and a ZoomIn step from such
a state increases the stack length by exactly 1. -/
theorem reachable_invariant (s : AppState) (click : Vec2) (h : Reachable s) :
    s.stack ≠ [] ∧ s.stack.getLast? = some (basePos, baseSize) ∧
    (stepApp s (.zoomIn click)).stack.length = s.stack.length + 1 := by
  have key : s.stack ≠ [] ∧ s.stack.getLast? = some (basePos, baseSize) := by
    induction h with
    | refl => exact ⟨by simp [initState], by simp [initState]⟩
    | @tail b c h1 h2 ih =>
      obtain ⟨e, rfl⟩ := h2
      obtain ⟨hne, hlast⟩ := ih
      obtain ⟨stk, lr⟩ := b
      simp only at hne hlast
      cases e with
      | zoomIn cl =>
        rcases stk with _ | ⟨⟨p, sz⟩, rest⟩
        · exact absurd rfl hne
        · refine ⟨by simp [stepApp], ?_⟩
          simp only [stepApp]
          rw [List.getLast?_cons_cons]
          exact hlast
      | zoomOut =>
        rcases stk with _ | ⟨a, _ | ⟨⟨p, sz⟩, rest⟩⟩
        · exact absurd rfl hne
        · exact ⟨hne, hlast⟩
        · rw [List.getLast?_cons_cons] at hlast
          exact ⟨by simp [stepApp], hlast⟩
      | other => exact ⟨hne, hlast⟩
  obtain ⟨stk, lr⟩ := s
  obtain ⟨hne, hlast⟩ := key
  simp only at hne hlast
  rcases stk with _ | ⟨⟨p, sz⟩, rest⟩
  · exact absurd rfl hne
  · exact ⟨hne, hlast, by simp [stepApp]⟩

/-- Witness for `reachable_invariant` at the startup state itself. -/
theorem reachable_invariant_witness :
    initState.stack ≠ [] ∧ initState.stack.getLast? = some (basePos, baseSize) ∧
    (stepApp initState (.zoomIn (Vec2.new 0 0))).stack.length = initState.stack.length + 1 :=
  reachable_invariant initState (Vec2.new 0 0) Relation.ReflTransGen.refl
